import Mathlib

/-!
MowPlan: a shallow embedding of `mowplan.cpp`

`main` reads a perimeter (a waypoint file), quantises it to an integer polygon,
repeatedly asks the Clipper library for the inward offset of the current ring and
writes every ring it receives as waypoint lines.

Conventions of the embedding.

* A C string is a Lean `String`; the C library functions used on `argv` are
  written out on the list of characters.
* `unsigned` is a `Nat` reduced modulo `2 ^ 32`; `int64_t` is an `Int`.
* `double` and `long double` are one type `F`.  Nothing is assumed about `F`
  except that it carries the operators the program uses; the functions of
  `<cmath>`, `std::stod` and the stream formatting of a floating value are the
  fields of `CMath F`.  The reading over the real numbers is `realMath`.
* The Clipper offset engine (`ClipperOffset::AddPaths` followed by `Execute`) is
  a parameter of type `Engine`.
* The input file is the list of lines `std::getline` yields; the output file is
  the list of lines written, each line being the list of items that the program
  separates by single blanks.
-/

namespace MowPlan

/-! ## Constants -/

/-- Maximum number of lines in an input waypoint file. -/
def MAXLINES : Nat := 100

/-- Number of parameters in each line of the waypoint file. -/
def PARMSPERLINE : Nat := 12

/-- Range of `unsigned`. -/
def UINT_RANGE : Nat := 2 ^ 32

/-! ## The C library functions applied to `argv` -/

/-- The function `isspace` of the C locale. -/
def isspace (c : Char) : Bool :=
  c.toNat == 32 || (9 ≤ c.toNat && c.toNat ≤ 13)

/-- The function `isdigit`. -/
def isdigit (c : Char) : Bool :=
  48 ≤ c.toNat && c.toNat ≤ 57

/-- Value of the longest run of decimal digits at the head of `cs`,
accumulated onto `acc`. -/
def digitsValue : List Char → Nat → Nat
  | [], acc => acc
  | c :: cs, acc => if isdigit c then digitsValue cs (acc * 10 + (c.toNat - 48)) else acc

/-- The function `strtoul(s, NULL, 10)` for an `unsigned long` of `w` bits: leading white
space is skipped, one sign is accepted, the digits are read; a value out of
range gives `ULONG_MAX`, and a leading minus negates the value in the
unsigned type. -/
def strtoul (w : Nat) (s : String) : Nat :=
  let cs := s.data.dropWhile isspace
  let neg := cs.head? == some '-'
  let ds := if cs.head? == some '-' || cs.head? == some '+' then cs.tail else cs
  let v := digitsValue ds 0
  if 2 ^ w ≤ v then 2 ^ w - 1
  else if neg then (2 ^ w - v) % 2 ^ w
  else v

/-- The conversion `(unsigned int)` of an `unsigned long`. -/
def toUnsigned (v : Nat) : Nat := v % UINT_RANGE

/-- The function `strupr`: every lower-case letter is replaced by its upper-case letter. -/
def strupr (s : String) : String := ⟨s.data.map Char.toUpper⟩

/-- Case-insensitive equality of two texts, in the spec's sense: the texts agree once
every upper-case letter is replaced by its lower-case letter. -/
def equalsIgnoreCase (a b : String) : Bool :=
  a.data.map Char.toLower == b.data.map Char.toLower

/-! ## Polygons and the offset engine -/

/-- The point type `ClipperLib::IntPoint`; `cInt` is a signed 64-bit integer. -/
structure IntPoint where
  X : Int
  Y : Int
deriving DecidableEq, Repr

/-- The type `ClipperLib::Path`. -/
abbrev Path := List IntPoint

/-- The type `ClipperLib::Paths`. -/
abbrev Paths := List Path

/-- The function `addPoint`: append the point `(xval, yval)` to the path. -/
def addPoint (xval yval : Int) (path : Path) : Path :=
  path ++ [⟨xval, yval⟩]

/-- The enumeration `ClipperLib::JoinType`. -/
inductive JoinType where
  | jtSquare
  | jtRound
  | jtMiter
deriving DecidableEq, Repr

/-- The enumeration `ClipperLib::EndType`. -/
inductive EndType where
  | etClosedPolygon
  | etClosedLine
  | etOpenButt
  | etOpenSquare
  | etOpenRound
deriving DecidableEq, Repr

/-- One use of a cleared `ClipperOffset`: `AddPaths(subj, jt, et)` followed by
`Execute(solution, delta)`; the value is the content of `solution`. -/
abbrev Engine := Paths → JoinType → EndType → Int → Paths

/-! ## Floating-point operations -/

/-- The functions of `<cmath>` that the program uses. -/
structure CMath (F : Type) where
  /-- The constant `M_PI`. -/
  pi : F
  /-- The function `sin`. -/
  sin : F → F
  /-- The function `cos`. -/
  cos : F → F
  /-- The function `sqrt`. -/
  sqrt : F → F
  /-- The function `pow`. -/
  pow : F → F → F
  /-- The function `round` followed by the conversion to `int64_t`, which keeps the value
  of every integer between `-2 ^ 63` and `2 ^ 63 - 1`. -/
  round : F → Int

/-- The conversions between floating values and text. -/
structure CText (F : Type) where
  /-- The function `std::stod`; `none` when it throws. -/
  stod : String → Option F
  /-- The text `operator<<` writes for a floating value under `precision(9)`. -/
  put : F → String
  /-- No conversion can be performed on the empty string: `std::stod` throws. -/
  stod_empty : stod "" = none

/-! ## Files and runs -/

/-- The files the program can reach: `input name` is the list of lines `std::getline`
yields from the file, `none` when the `ifstream` fails to open; `output name`
tells whether the `ofstream` opens.  The two names are taken to denote
different files. -/
structure Files where
  input : String → Option (List String)
  output : String → Bool

/-- How a run ends: `main` returns a code, an exception of `std::stod` escapes `main`,
the waypoint table overflows, or the offset loop is still turning when the
fuel is spent. -/
inductive Status where
  | returned (code : Nat)
  | aborted
  | overflow
  | running
deriving DecidableEq, Repr

/-- What a run leaves behind. -/
structure Run where
  status : Status
  /-- Lines of the output file; a line is the list of its blank-separated items. -/
  outfile : List (List String)
  /-- Lines written to `std::cout`. -/
  cout : List String
  /-- Lines written to `std::cerr`. -/
  cerr : List String
deriving DecidableEq, Repr

/-! ## The waypoint table -/

/-- The rows of `WPparms` that have been filled. -/
abbrev Table := List (List String)

/-- The entry `WPparms[j][i]`; an entry never assigned is the empty string. -/
def cell (WPparms : Table) (j i : Nat) : String :=
  (WPparms.getD j []).getD i ""

/-- White-space separated words of a line, as successive `iss >> word` yield them:
`cur` is the word being read (reversed), `acc` the words read (reversed). -/
def wordsAux : List Char → List Char → List String → List String
  | [], cur, acc =>
      (if cur.isEmpty then acc else String.mk cur.reverse :: acc).reverse
  | c :: cs, cur, acc =>
      if isspace c then
        wordsAux cs [] (if cur.isEmpty then acc else String.mk cur.reverse :: acc)
      else wordsAux cs (c :: cur) acc

/-- One row of the table: `PARMSPERLINE` extractions from the line; an extraction that
fails leaves the entry empty. -/
def parseLine (line : String) : List String :=
  (List.range PARMSPERLINE).map (fun icnt => (wordsAux line.data [] []).getD icnt "")

/-! ## The scale model and the quantiser -/

section Numeric

variable {F : Type} [Add F] [Sub F] [Mul F] [Div F] [Neg F] [NatCast F] [IntCast F]
  [OfScientific F]

/-- The macro `MTRPERINCH`. -/
def MTRPERINCH : F := 0.0254

/-- The constant `SCALEFACTOR`, `-100000000.L`. -/
def SCALEFACTOR : F := -100000000.0

/-- The expression initialising `LatMtrPerDeg`. -/
def LatMtrPerDeg (M : CMath F) (latrad : F) : F :=
  M.pi * 6378137.0 * (((1 : Nat) : F) - 0.00669437999014) /
    (((180 : Nat) : F) *
      M.pow (M.sqrt (((1 : Nat) : F) - 0.00669437999014 * M.pow (M.sin latrad) ((2 : Nat) : F)))
        1.5)

/-- The expression initialising `LongMtrPerDeg`. -/
def LongMtrPerDeg (M : CMath F) (latrad : F) : F :=
  M.pi * 6378137.0 * M.cos latrad /
    (((180 : Nat) : F) *
      M.sqrt (((1 : Nat) : F) - 0.00669437999014 * M.pow (M.sin latrad) ((2 : Nat) : F)))

/-- The expression initialising `LongScaleFactor`. -/
def LongScaleFactor (M : CMath F) (latrad : F) : F :=
  LongMtrPerDeg M latrad / LatMtrPerDeg M latrad

/-- The expression initialising `DegSpacing`. -/
def DegSpacing (M : CMath F) (InchSpacing : Nat) (latrad : F) : Int :=
  M.round (((InchSpacing : F) * MTRPERINCH / LatMtrPerDeg M latrad) * SCALEFACTOR)

/-- The entry of the waypoint table that `latrad` is computed from: `WPparms[2][8]`. -/
def latradSource (WPparms : Table) : String :=
  cell WPparms 2 8

/-- The expression initialising `latrad`; `none` when `std::stod` throws. -/
def latrad (M : CMath F) (T : CText F) (WPparms : Table) : Option F :=
  (T.stod (latradSource WPparms)).map (fun v => (M.pi / 180.0) * v)

/-- First argument of `addPoint`: the quantised latitude. -/
def quantLat (M : CMath F) (lat : F) : Int :=
  M.round (lat * SCALEFACTOR)

/-- Second argument of `addPoint`: the quantised, scaled longitude. -/
def quantLon (M : CMath F) (lsf mowdir lon : F) : Int :=
  M.round (lsf * lon * (mowdir * SCALEFACTOR))

/-- The latitude written for a point whose `X` is `x`. -/
def dequantLat (x : Int) : F :=
  (x : F) / SCALEFACTOR

/-- The longitude written for a point whose `Y` is `y`. -/
def dequantLon (lsf mowdir : F) (y : Int) : F :=
  ((y : F) / lsf) / (mowdir * SCALEFACTOR)

/-- The loop that fills the path `p` from the given rows of the table; `none` when
`std::stod` throws. -/
def buildPath (M : CMath F) (T : CText F) (lsf mowdir : F) :
    List (List String) → Path → Option Path
  | [], p => some p
  | row :: rows, p =>
      match T.stod (row.getD 8 ""), T.stod (row.getD 9 "") with
      | some lat, some lon =>
          buildPath M T lsf mowdir rows
            (addPoint (quantLat M lat) (quantLon M lsf mowdir lon) p)
      | _, _ => none

/-! ## The offset loop -/

/-- The variables the offset loop changes. -/
structure Stitch (F : Type) where
  FirstCornerX : F
  newlno : Nat
  outfile : List (List String)

/-- The variables the offset loop reads. -/
structure Ctx (F : Type) where
  WPparms : Table
  lno : Nat
  LongScaleFactor : F
  mowdir : F
  DegSpacing : Int

/-- The body of the loop over the points of a ring: one line of the output file. -/
def emitPoint (T : CText F) (cx : Ctx F) (jcnt : Nat) (ipt : IntPoint) (st : Stitch F) :
    Stitch F :=
  let front := toString st.newlno ::
    (List.range' 1 7).map (fun kcnt => cell cx.WPparms (cx.lno - 1) kcnt)
  let back := [cell cx.WPparms (cx.lno - 1) 10, cell cx.WPparms (cx.lno - 1) 11]
  let lon := T.put (dequantLon cx.LongScaleFactor cx.mowdir ipt.Y)
  if jcnt = 0 then
    ⟨(ipt.X : F), (st.newlno + 1) % UINT_RANGE,
      st.outfile ++ [front ++ [T.put (st.FirstCornerX / SCALEFACTOR), lon] ++ back]⟩
  else
    ⟨st.FirstCornerX, (st.newlno + 1) % UINT_RANGE,
      st.outfile ++ [front ++ [T.put (dequantLat ipt.X), lon] ++ back]⟩

/-- The loop over the points of the ring `pth3`, from index `jcnt` on. -/
def emitRing (T : CText F) (cx : Ctx F) : Nat → Path → Stitch F → Stitch F
  | _, [], st => st
  | jcnt, ipt :: rest, st => emitRing T cx (jcnt + 1) rest (emitPoint T cx jcnt ipt st)

/-- The loop over the rings of `solution`. -/
def emitSolution (T : CText F) (cx : Ctx F) (solution : Paths) (st : Stitch F) : Stitch F :=
  solution.foldl (fun s pth3 => emitRing T cx 0 pth3 s) st

/-- The boundary the loop hands to the engine after a turn: `subj` holds `pth3`, the
ring assigned last. -/
def nextSubject (solution : Paths) : Paths :=
  [solution.getLastD []]

/-- The offset loop `while (solution.size() > 0)`, for at most `fuel` turns.  The flag
tells whether the loop was left. -/
def offsetLoop (T : CText F) (cx : Ctx F) (E : Engine) :
    Nat → Paths → Stitch F → Stitch F × Bool
  | _, [], st => (st, true)
  | 0, _ :: _, st => (st, false)
  | fuel + 1, ring :: rings, st =>
      offsetLoop T cx E fuel
        (E (nextSubject (ring :: rings)) JoinType.jtMiter EndType.etClosedPolygon cx.DegSpacing)
        (emitSolution T cx (ring :: rings) st)

/-! ## The program -/

/-- The lines copied from the input file to the output file: the two header lines, then
every perimeter line. -/
def copyInput (infile : List String) : List (List String) :=
  [[infile.getD 0 ""], [infile.getD 1 ""]] ++ (infile.drop 2).map (fun line => [line])

/-- What `main` has computed when it reaches the first call of the engine. -/
structure Setup (F : Type) where
  cx : Ctx F
  p : Path
  FirstCornerX : Int

/-- The part of `main` from the declaration of `WPparms` to the initialisation of
`FirstCornerX`: the table, the scale model, the perimeter path. -/
def prepare (M : CMath F) (T : CText F) (infile : List String) (InchSpacing : Nat)
    (mowdir : F) : Except Status (Setup F) :=
  let perimeter := infile.drop 2
  if MAXLINES < perimeter.length then Except.error Status.overflow
  else
    let WPparms : Table := perimeter.map parseLine
    match latrad M T WPparms with
    | none => Except.error Status.aborted
    | some lr =>
      let lsf := LongScaleFactor M lr
      match buildPath M T lsf mowdir WPparms [] with
      | none => Except.error Status.aborted
      | some p =>
        match T.stod (cell WPparms 0 8) with
        | none => Except.error Status.aborted
        | some lat0 =>
          Except.ok ⟨⟨WPparms, perimeter.length, lsf, mowdir, DegSpacing M InchSpacing lr⟩,
            p, quantLat M lat0⟩

/-- The part of `main` after the command line is accepted. -/
def plan (M : CMath F) (T : CText F) (E : Engine) (fuel : Nat) (infile : List String)
    (InchSpacing : Nat) (mowdir : F) : Run :=
  match prepare M T infile InchSpacing mowdir with
  | Except.error status => ⟨status, copyInput infile, [], []⟩
  | Except.ok su =>
    let solution := E [su.p] JoinType.jtMiter EndType.etClosedPolygon su.cx.DegSpacing
    let fin := offsetLoop T su.cx E fuel solution
      ⟨(su.FirstCornerX : F), (su.cx.lno + 1) % UINT_RANGE, copyInput infile⟩
    if fin.2 then
      ⟨Status.returned 0, fin.1.outfile,
        [toString fin.1.newlno ++ " waypoints in new file."], []⟩
    else ⟨Status.running, fin.1.outfile, [], []⟩

/-- The usage text. -/
def usage : List String :=
  ["Usage:",
   " mowplan.exe InputWayPointFileName OutputWayPointFileName Spacing-Inches DIR",
   "  where DIR is CW or CCW"]

/-- The function `main`; `argv` holds the `argc` arguments, the program name first, and
`w` is the width of `unsigned long`. -/
def main (w : Nat) (M : CMath F) (T : CText F) (E : Engine) (fs : Files) (fuel : Nat)
    (argv : List String) : Run :=
  if argv.length ≠ 5 then ⟨Status.returned 1, [], [], usage⟩
  else
    let inputname := argv.getD 1 ""
    let outname := argv.getD 2 ""
    let InchSpacing := toUnsigned (strtoul w (argv.getD 3 ""))
    match fs.input inputname with
    | none => ⟨Status.returned 2, [], [], ["Unable to open input file: " ++ inputname]⟩
    | some infile =>
      if fs.output outname = false then
        ⟨Status.returned 3, [], [], ["Unable to open output file: " ++ outname]⟩
      else if InchSpacing < 1 then
        ⟨Status.returned 4, [], [], ["Spacing must be greater than 0."]⟩
      else if strupr (argv.getD 4 "") = "CW" then
        plan M T E fuel infile InchSpacing ((1 : Int) : F)
      else if strupr (strupr (argv.getD 4 "")) = "CCW" then
        plan M T E fuel infile InchSpacing ((-1 : Int) : F)
      else ⟨Status.returned 5, [], [], ["DIR must be CW or CCW"]⟩

end Numeric

/-! ## The specification of the driver and the stitcher

The definitions of this section follow the words of the specification, not the
code; the theorems compare them with the loops of `main`. -/

section Specification

variable {F : Type} [Add F] [Sub F] [Mul F] [Div F] [Neg F] [NatCast F] [IntCast F]
  [OfScientific F]

/-- Specification, ring offset driver: the result of the `i`-th call of the engine.  The
first boundary is the perimeter ring alone; every later boundary is the last
ring of the previous result alone; join, mode and spacing never change. -/
def engineResult (E : Engine) (spacing : Int) (p : Path) : Nat → Paths
  | 0 => E [p] JoinType.jtMiter EndType.etClosedPolygon spacing
  | i + 1 =>
      E [(engineResult E spacing p i).getLastD []] JoinType.jtMiter EndType.etClosedPolygon
        spacing

/-- Specification, ring offset driver: the rings of the first `k` results, in the order
in which they are returned. -/
def ringsOfCalls (E : Engine) (spacing : Int) (p : Path) (k : Nat) : List Path :=
  ((List.range k).map (engineResult E spacing p)).flatten

/-- The rings that the offset loop hands to the stitcher during its first `fuel` turns
when it starts from `solution`. -/
def emitted (E : Engine) (spacing : Int) : Nat → Paths → List Path
  | _, [] => []
  | 0, _ :: _ => []
  | fuel + 1, ring :: rings =>
      (ring :: rings) ++
        emitted E spacing fuel
          (E (nextSubject (ring :: rings)) JoinType.jtMiter EndType.etClosedPolygon spacing)

/-- Specification, continuity rule: for a list of non-empty rings, the `X` whose quotient
by the scale factor is written as the latitude of each point.  The first point
of a ring takes `prev`, the first-corner `X` of the ring before it (for the
first ring, the quantised latitude of the first perimeter point); every other
point takes its own `X`. -/
def continuityXs : Int → List Path → List Int
  | _, [] => []
  | prev, [] :: rings => continuityXs prev rings
  | prev, (corner :: others) :: rings =>
      (prev :: others.map (fun ipt => ipt.X)) ++ continuityXs corner.X rings

/-- Specification, waypoint file writer: the line of a generated waypoint: the index, the
seven payload fields of the last perimeter record, latitude, longitude, and the
two trailing payload fields of that record. -/
def waypointLine (T : CText F) (cx : Ctx F) (index : Nat) (lat lon : F) : List String :=
  [toString index] ++
    (List.range' 1 7).map (fun kcnt => cell cx.WPparms (cx.lno - 1) kcnt) ++
    [T.put lat, T.put lon] ++
    [cell cx.WPparms (cx.lno - 1) 10, cell cx.WPparms (cx.lno - 1) 11]

/-- The points of a list of rings, each with the `X` that stands for its latitude under
the continuity rule; rings without a point contribute nothing. -/
def stitched : Int → List Path → List (Int × IntPoint)
  | _, [] => []
  | prev, [] :: rings => stitched prev rings
  | prev, (corner :: others) :: rings =>
      ((prev, corner) :: others.map (fun ipt => (ipt.X, ipt))) ++ stitched corner.X rings

/-- The first-corner `X` that is remembered after a list of rings. -/
def lastCorner : Int → List Path → Int
  | prev, [] => prev
  | prev, [] :: rings => lastCorner prev rings
  | _, (corner :: _) :: rings => lastCorner corner.X rings

/-- The lines of a list of stitched points, numbered from `start` in `unsigned`. -/
def waypointLines (T : CText F) (cx : Ctx F) : Nat → List (Int × IntPoint) → List (List String)
  | _, [] => []
  | start, (x, ipt) :: rest =>
      waypointLine T cx start (dequantLat x) (dequantLon cx.LongScaleFactor cx.mowdir ipt.Y) ::
        waypointLines T cx ((start + 1) % UINT_RANGE) rest

end Specification

/-! ## Two arithmetics

`realMath` reads the floating-point operations as the exact operations on real
numbers.  `ratMath` and `ratText` are a coarse rational arithmetic on which the
model can be run; no theorem depends on how coarse it is, since the theorems
about the files hold for every arithmetic. -/

/-- The function `round` of C, to the nearest integer with halves away from zero. -/
def cround {K : Type} [LinearOrderedField K] [FloorRing K] (x : K) : Int :=
  if 0 ≤ x then ⌊x + 1 / 2⌋ else ⌈x - 1 / 2⌉

/-- The operations of `<cmath>` over the real numbers. -/
noncomputable def realMath : CMath ℝ where
  pi := Real.pi
  sin := Real.sin
  cos := Real.cos
  sqrt := Real.sqrt
  pow := fun x y => x ^ y
  round := cround

/-- Specification, GeoProjector: metres per degree of latitude at the latitude `phi`,
`pi * a * (1 - e2) / (180 * (1 - e2 * sin phi ^ 2) ^ 1.5)`. -/
noncomputable def metersPerDegLat (phi : ℝ) : ℝ :=
  Real.pi * 6378137.0 * (1 - 0.00669437999014) /
    (180 * (1 - 0.00669437999014 * Real.sin phi ^ 2) ^ (1.5 : ℝ))

/-- Decimal text without exponent, read as a rational number: optional sign, digits,
optional point and digits; `none` when there is no digit. -/
def stodQ (s : String) : Option ℚ :=
  let cs := s.data.dropWhile isspace
  let neg := cs.head? == some '-'
  let ds := if cs.head? == some '-' || cs.head? == some '+' then cs.tail else cs
  let ip := ds.takeWhile isdigit
  let rest := ds.dropWhile isdigit
  let fp := if rest.head? == some '.' then rest.tail.takeWhile isdigit else []
  if ip.isEmpty && fp.isEmpty then none
  else
    let v : ℚ := (digitsValue (ip ++ fp) 0 : ℚ) / (10 : ℚ) ^ fp.length
    some (if neg then -v else v)

/-- Text conversions on rational numbers: a value is written as the integer nearest to
its product by `10 ^ 9`. -/
def ratText : CText ℚ where
  stod := stodQ
  put := fun q => toString (cround (q * 1000000000))
  stod_empty := by decide

/-- Rational stand-ins for the functions of `<cmath>`: truncated series. -/
def ratMath : CMath ℚ where
  pi := 355 / 113
  sin := fun x => x - x ^ 3 / 6
  cos := fun x => 1 - x ^ 2 / 2
  sqrt := fun x => (1 + x) / 2
  pow := fun x y => if y = 2 then x * x else x
  round := cround

/-! ## A sample run -/

/-- A waypoint file: two header lines and a perimeter of three records. -/
def sampleInput : List String :=
  ["QGC WPL 110",
   "0 1 0 16 0 0 0 0 36.1 -86.1 100.0 1",
   "1 0 3 16 0.0 0.0 0.0 0.0 36.10000000 -86.10000000 100.0 1",
   "2 0 3 16 0.0 0.0 0.0 0.0 36.10010000 -86.10000000 100.0 1",
   "3 0 3 16 0.0 0.0 0.0 0.0 36.10020000 -86.10010000 100.0 1"]

/-- A file system with one readable file and one writable file. -/
def sampleFiles : Files where
  input := fun name => if name = "in.waypoints" then some sampleInput else none
  output := fun name => name == "out.waypoints"

/-- An engine that never returns a ring. -/
def noRings : Engine := fun _ _ _ _ => []

/-- An engine that drops the last point of every ring and returns the rings that keep
a point. -/
def peel : Engine := fun subj _ _ _ =>
  (subj.map List.dropLast).filter (fun ring => !ring.isEmpty)

/-- What `prepare` computes on the sample file for a spacing of 54 inches, clockwise. -/
def sampleSetup : Setup ℚ :=
  match prepare ratMath ratText sampleInput 54 ((1 : Int) : ℚ) with
  | Except.ok su => su
  | Except.error _ => ⟨⟨[], 0, 0, 0, 0⟩, [], 0⟩

/-! # Proofs -/

set_option linter.unusedSectionVars false

/-! ## The command line -/

theorem char_by_cases (P : Char → Prop) (c : Char)
    (hin : ∀ n, 65 ≤ n → n ≤ 122 → P (Char.ofNat n))
    (hout : ¬ (65 ≤ c.toNat ∧ c.toNat ≤ 122) → P c) : P c := by
  by_cases h : 65 ≤ c.toNat ∧ c.toNat ≤ 122
  · have := hin c.toNat h.1 h.2
    rwa [Char.ofNat_toNat] at this
  · exact hout h

theorem toUpper_of_not_letter (c : Char) (h : ¬ (65 ≤ c.toNat ∧ c.toNat ≤ 122)) :
    c.toUpper = c ∧ c.toLower = c := by
  constructor
  · unfold Char.toUpper
    simp only []
    rw [if_neg]
    intro h2; apply h; omega
  · unfold Char.toLower
    simp only []
    rw [if_neg]
    intro h2; apply h; omega

theorem toUpper_facts (c : Char) :
    (c.toUpper = 'C' ↔ c.toLower = 'c') ∧ (c.toUpper = 'W' ↔ c.toLower = 'w') ∧
      c.toUpper.toUpper = c.toUpper := by
  refine char_by_cases (fun c => (c.toUpper = 'C' ↔ c.toLower = 'c') ∧
    (c.toUpper = 'W' ↔ c.toLower = 'w') ∧ c.toUpper.toUpper = c.toUpper) c ?_ ?_
  · intro n h1 h2
    interval_cases n <;> decide
  · intro h
    obtain ⟨h1, h2⟩ := toUpper_of_not_letter c h
    rw [h1, h2, h1]
    have ne : ∀ d : Char, (65 ≤ d.toNat ∧ d.toNat ≤ 122) → c ≠ d := by
      intro d hd hcd
      exact h (hcd ▸ hd)
    have e1 := ne 'C' (by decide)
    have e2 := ne 'c' (by decide)
    have e3 := ne 'W' (by decide)
    have e4 := ne 'w' (by decide)
    simp [e1, e2, e3, e4]

theorem strupr_CW (s : String) : strupr s = "CW" ↔ equalsIgnoreCase s "CW" = true := by
  obtain ⟨l⟩ := s
  rw [String.ext_iff]
  show l.map Char.toUpper = ['C', 'W'] ↔ (l.map Char.toLower == ['C', 'W'].map Char.toLower) = true
  rw [beq_iff_eq]
  have e : ['C', 'W'].map Char.toLower = ['c', 'w'] := by decide
  rw [e]
  match l with
  | [] => simp
  | [a] => simp
  | [a, b] => simp [(toUpper_facts a).1, (toUpper_facts b).2.1]
  | a :: b :: c :: r => simp

theorem strupr_CCW (s : String) :
    strupr (strupr s) = "CCW" ↔ equalsIgnoreCase s "CCW" = true := by
  obtain ⟨l⟩ := s
  rw [String.ext_iff]
  show (l.map Char.toUpper).map Char.toUpper = ['C', 'C', 'W'] ↔
    (l.map Char.toLower == ['C', 'C', 'W'].map Char.toLower) = true
  rw [beq_iff_eq]
  have e : ['C', 'C', 'W'].map Char.toLower = ['c', 'c', 'w'] := by decide
  have hf : (Char.toUpper ∘ Char.toUpper) = Char.toUpper :=
    funext (fun c => (toUpper_facts c).2.2)
  rw [e, List.map_map, hf]
  match l with
  | [] => simp
  | [a] => simp
  | [a, b] => simp
  | [a, b, c] => simp [(toUpper_facts a).1, (toUpper_facts b).1, (toUpper_facts c).2.1]
  | a :: b :: c :: d :: r => simp

section CommandLine

variable {F : Type} [Add F] [Sub F] [Mul F] [Div F] [Neg F] [NatCast F] [IntCast F]
  [OfScientific F]

theorem prepare_error (M : CMath F) (T : CText F) (infile : List String) (sp : Nat) (d : F)
    (s : Status) (h : prepare M T infile sp d = Except.error s) :
    s = Status.overflow ∨ s = Status.aborted := by
  unfold prepare at h
  simp only [] at h
  split at h
  · cases h; exact Or.inl rfl
  · split at h
    · cases h; exact Or.inr rfl
    · split at h
      · cases h; exact Or.inr rfl
      · split at h
        · cases h; exact Or.inr rfl
        · cases h

theorem plan_returned (M : CMath F) (T : CText F) (E : Engine) (fuel : Nat)
    (infile : List String) (sp : Nat) (d : F) (c : Nat)
    (h : (plan M T E fuel infile sp d).status = Status.returned c) : c = 0 := by
  unfold plan at h
  split at h
  · next s hs =>
    rcases prepare_error M T infile sp d s hs with e | e <;> rw [e] at h <;> cases h
  · simp only [] at h
    split at h
    · simpa using h.symm
    · cases h

/-- C1: `main` returns 1 when the argument count is not 5; with five arguments it
returns 2 when the input file does not open, 3 when the input opens and the
output does not, 4 when both open and the spacing parses to a value below 1;
with a spacing of at least 1 it returns 5 exactly when the direction is neither
"CW" nor "CCW" compared case-insensitively, a direction equal to "CW" up to
case runs the plan with direction `1`, and one equal to "CCW" with `-1`. -/
theorem main_exit_codes (w : Nat) (M : CMath F) (T : CText F) (E : Engine) (fs : Files)
    (fuel : Nat) (argv : List String) :
    (argv.length ≠ 5 → (main w M T E fs fuel argv).status = Status.returned 1) ∧
    (argv.length = 5 → fs.input (argv.getD 1 "") = none →
      (main w M T E fs fuel argv).status = Status.returned 2) ∧
    (∀ infile, argv.length = 5 → fs.input (argv.getD 1 "") = some infile →
      (fs.output (argv.getD 2 "") = false →
        (main w M T E fs fuel argv).status = Status.returned 3) ∧
      (fs.output (argv.getD 2 "") = true → toUnsigned (strtoul w (argv.getD 3 "")) < 1 →
        (main w M T E fs fuel argv).status = Status.returned 4) ∧
      (fs.output (argv.getD 2 "") = true → 1 ≤ toUnsigned (strtoul w (argv.getD 3 "")) →
        ((main w M T E fs fuel argv).status = Status.returned 5 ↔
          (equalsIgnoreCase (argv.getD 4 "") "CW" = false ∧
            equalsIgnoreCase (argv.getD 4 "") "CCW" = false)) ∧
        (equalsIgnoreCase (argv.getD 4 "") "CW" = true →
          main w M T E fs fuel argv =
            plan M T E fuel infile (toUnsigned (strtoul w (argv.getD 3 ""))) ((1 : Int) : F)) ∧
        (equalsIgnoreCase (argv.getD 4 "") "CCW" = true →
          main w M T E fs fuel argv =
            plan M T E fuel infile (toUnsigned (strtoul w (argv.getD 3 "")))
              ((-1 : Int) : F)))) := by
  refine ⟨?_, ?_, ?_⟩
  · intro h
    simp only [main, h, ne_eq, not_false_eq_true, ↓reduceIte]
  · intro h1 h2
    simp only [main, h1, h2, ne_eq, not_true_eq_false, ↓reduceIte]
  · intro infile h1 h2
    refine ⟨?_, ?_, ?_⟩
    · intro h3
      simp only [main, h1, h2, h3, ne_eq, not_true_eq_false, ↓reduceIte]
    · intro h3 h4
      simp only [main, h1, h2, h3, h4, ne_eq, not_true_eq_false, ↓reduceIte, Bool.true_eq_false]
    · intro h3 h4
      have h4' : ¬ toUnsigned (strtoul w (argv.getD 3 "")) < 1 := by omega
      have hcw := strupr_CW (argv.getD 4 "")
      have hccw := strupr_CCW (argv.getD 4 "")
      have hmain : main w M T E fs fuel argv =
          if strupr (argv.getD 4 "") = "CW" then
            plan M T E fuel infile (toUnsigned (strtoul w (argv.getD 3 ""))) ((1 : Int) : F)
          else if strupr (strupr (argv.getD 4 "")) = "CCW" then
            plan M T E fuel infile (toUnsigned (strtoul w (argv.getD 3 ""))) ((-1 : Int) : F)
          else ⟨Status.returned 5, [], [], ["DIR must be CW or CCW"]⟩ := by
        simp only [main, h1, h2, h3, h4', ne_eq, not_true_eq_false, ↓reduceIte, Bool.true_eq_false]
      have hex : ¬ (equalsIgnoreCase (argv.getD 4 "") "CW" = true ∧ 
          equalsIgnoreCase (argv.getD 4 "") "CCW" = true) := by
        rintro ⟨a, b⟩
        rw [← hcw] at a
        rw [← hccw, a] at b
        exact absurd b (by decide)
      rw [hmain]
      by_cases c1 : strupr (argv.getD 4 "") = "CW"
      · have e1 := hcw.mp c1
        have e2 : equalsIgnoreCase (argv.getD 4 "") "CCW" ≠ true := fun e2 => hex ⟨e1, e2⟩
        rw [if_pos c1]
        refine ⟨⟨fun h => ?_, fun h => ?_⟩, fun _ => rfl, fun h => absurd h e2⟩
        · have := plan_returned M T E fuel infile _ _ 5 h
          omega
        · rw [e1] at h; exact absurd h.1 (by decide)
      · have e1 : equalsIgnoreCase (argv.getD 4 "") "CW" ≠ true := fun e => c1 (hcw.mpr e)
        rw [if_neg c1]
        by_cases c2 : strupr (strupr (argv.getD 4 "")) = "CCW"
        · have e2 := hccw.mp c2
          rw [if_pos c2]
          refine ⟨⟨fun h => ?_, fun h => ?_⟩, fun h => absurd h e1, fun _ => rfl⟩
          · have := plan_returned M T E fuel infile _ _ 5 h
            omega
          · rw [e2] at h; exact absurd h.2 (by decide)
        · have e2 : equalsIgnoreCase (argv.getD 4 "") "CCW" ≠ true := fun e => c2 (hccw.mpr e)
          rw [if_neg c2]
          refine ⟨⟨fun _ => ⟨by simpa using e1, by simpa using e2⟩, fun _ => rfl⟩,
            fun h => absurd h e1, fun h => absurd h e2⟩

end CommandLine

theorem main_exit_codes_witness :
    (main 64 ratMath ratText noRings sampleFiles 0
        ["mowplan.exe", "in.waypoints"]).status = Status.returned 1 ∧
    (main 64 ratMath ratText noRings sampleFiles 0
        ["mowplan.exe", "no.waypoints", "out.waypoints", "54", "CW"]).status =
      Status.returned 2 ∧
    (main 64 ratMath ratText noRings sampleFiles 0
        ["mowplan.exe", "in.waypoints", "no.waypoints", "54", "CW"]).status =
      Status.returned 3 ∧
    (main 64 ratMath ratText noRings sampleFiles 0
        ["mowplan.exe", "in.waypoints", "out.waypoints", "0", "CW"]).status =
      Status.returned 4 ∧
    (main 64 ratMath ratText noRings sampleFiles 0
        ["mowplan.exe", "in.waypoints", "out.waypoints", "54", "up"]).status =
      Status.returned 5 ∧
    main 64 ratMath ratText noRings sampleFiles 0
        ["mowplan.exe", "in.waypoints", "out.waypoints", "54", "Cw"] =
      plan ratMath ratText noRings 0 sampleInput 54 ((1 : Int) : ℚ) ∧
    main 64 ratMath ratText noRings sampleFiles 0
        ["mowplan.exe", "in.waypoints", "out.waypoints", "54", "ccw"] =
      plan ratMath ratText noRings 0 sampleInput 54 ((-1 : Int) : ℚ) :=
  ⟨(main_exit_codes 64 ratMath ratText noRings sampleFiles 0
      ["mowplan.exe", "in.waypoints"]).1 (by decide),
   (main_exit_codes 64 ratMath ratText noRings sampleFiles 0
      ["mowplan.exe", "no.waypoints", "out.waypoints", "54", "CW"]).2.1 (by decide) (by decide),
   ((main_exit_codes 64 ratMath ratText noRings sampleFiles 0
      ["mowplan.exe", "in.waypoints", "no.waypoints", "54", "CW"]).2.2 sampleInput
        (by decide) (by decide)).1 (by decide),
   ((main_exit_codes 64 ratMath ratText noRings sampleFiles 0
      ["mowplan.exe", "in.waypoints", "out.waypoints", "0", "CW"]).2.2 sampleInput
        (by decide) (by decide)).2.1 (by decide) (by decide),
   (((main_exit_codes 64 ratMath ratText noRings sampleFiles 0
      ["mowplan.exe", "in.waypoints", "out.waypoints", "54", "up"]).2.2 sampleInput
        (by decide) (by decide)).2.2 (by decide) (by decide)).1.mpr ⟨by decide, by decide⟩,
   (((main_exit_codes 64 ratMath ratText noRings sampleFiles 0
      ["mowplan.exe", "in.waypoints", "out.waypoints", "54", "Cw"]).2.2 sampleInput
        (by decide) (by decide)).2.2 (by decide) (by decide)).2.1 (by decide),
   (((main_exit_codes 64 ratMath ratText noRings sampleFiles 0
      ["mowplan.exe", "in.waypoints", "out.waypoints", "54", "ccw"]).2.2 sampleInput
        (by decide) (by decide)).2.2 (by decide) (by decide)).2.2 (by decide)⟩

/-- C2 (the code departs from the claim): the spacing argument "-5" is not rejected.
`strtoul` negates the value in the unsigned type, so `InchSpacing` is
4294967291 whether `unsigned long` has 32 or 64 bits, the test
`InchSpacing < 1` fails, and `main` runs the plan: with the sample file and
the engine `peel` it returns 0 after writing three generated lines. -/
theorem negative_spacing_accepted :
    toUnsigned (strtoul 64 "-5") = 4294967291 ∧
    toUnsigned (strtoul 32 "-5") = 4294967291 ∧
    main 64 ratMath ratText peel sampleFiles 5
        ["mowplan.exe", "in.waypoints", "out.waypoints", "-5", "CW"] =
      plan ratMath ratText peel 5 sampleInput 4294967291 ((1 : Int) : ℚ) ∧
    (main 64 ratMath ratText peel sampleFiles 5
        ["mowplan.exe", "in.waypoints", "out.waypoints", "-5", "CW"]).status =
      Status.returned 0 ∧
    (main 64 ratMath ratText peel sampleFiles 5
        ["mowplan.exe", "in.waypoints", "out.waypoints", "-5", "CW"]).outfile.length =
      (copyInput sampleInput).length + 3 :=
  ⟨by decide, by decide, rfl, by decide, by decide⟩

/-! ## The reference latitude -/

/-- C3 (the code departs from the claim): on the sample perimeter of three records the
entry `WPparms[2][8]` from which `latrad` is computed is the latitude field
of the third record, "36.10020000", while the latitude field of the first
record, row 0 of the table, is "36.10000000"; `latrad` is the image of the
former. -/
theorem reference_latitude_is_row_two :
    ((sampleInput.drop 2).map parseLine).length = 3 ∧
    cell ((sampleInput.drop 2).map parseLine) 0 8 = "36.10000000" ∧
    latradSource ((sampleInput.drop 2).map parseLine) = "36.10020000" ∧
    latrad ratMath ratText ((sampleInput.drop 2).map parseLine) =
      (ratText.stod "36.10020000").map (fun v => (ratMath.pi / 180.0) * v) ∧
    latrad ratMath ratText ((sampleInput.drop 2).map parseLine) ≠
      (ratText.stod "36.10000000").map (fun v => (ratMath.pi / 180.0) * v) := by
  refine ⟨by decide, by decide, by decide, rfl, ?_⟩
  have h1 : stodQ "36.10020000" = some (((3610020000 : ℕ) : ℚ) / 10 ^ 8) := rfl
  have h2 : stodQ "36.10000000" = some (((3610000000 : ℕ) : ℚ) / 10 ^ 8) := rfl
  have h3 : latrad ratMath ratText ((sampleInput.drop 2).map parseLine) =
      (stodQ "36.10020000").map (fun v => (ratMath.pi / 180.0) * v) := rfl
  rw [h3]
  show (stodQ "36.10020000").map _ ≠ (stodQ "36.10000000").map _
  rw [h1, h2]
  simp only [Option.map_some', ne_eq, Option.some.injEq, ratMath]
  norm_num

/-! ## The offset loop and the stitcher -/

section Loop

variable {F : Type} [Add F] [Sub F] [Mul F] [Div F] [Neg F] [NatCast F] [IntCast F]
  [OfScientific F]

theorem emitPoint_line (T : CText F) (cx : Ctx F) (jcnt : Nat) (ipt : IntPoint)
    (st : Stitch F) :
    emitPoint T cx jcnt ipt st =
      ⟨if jcnt = 0 then (ipt.X : F) else st.FirstCornerX, (st.newlno + 1) % UINT_RANGE,
        st.outfile ++ [waypointLine T cx st.newlno
          (if jcnt = 0 then st.FirstCornerX / SCALEFACTOR else dequantLat ipt.X)
          (dequantLon cx.LongScaleFactor cx.mowdir ipt.Y)]⟩ := by
  unfold emitPoint waypointLine
  by_cases h : jcnt = 0 <;> simp [h]

theorem emitRing_tail (T : CText F) (cx : Ctx F) (others : Path) :
    ∀ (jcnt : Nat) (st : Stitch F), jcnt ≠ 0 → st.newlno < UINT_RANGE →
      emitRing T cx jcnt others st =
        ⟨st.FirstCornerX, (st.newlno + others.length) % UINT_RANGE,
          st.outfile ++ waypointLines T cx st.newlno (others.map (fun ipt => (ipt.X, ipt)))⟩ := by
  induction others with
  | nil =>
    intro jcnt st _ hlt
    simp [emitRing, waypointLines, Nat.mod_eq_of_lt hlt]
  | cons ipt rest ih =>
    intro jcnt st hj hlt
    have hp := emitPoint_line T cx jcnt ipt st
    simp only [hj, if_false] at hp
    rw [emitRing, hp, ih (jcnt + 1) _ (Nat.succ_ne_zero _) (Nat.mod_lt _ (by decide))]
    have e : ((st.newlno + 1) % UINT_RANGE + rest.length) % UINT_RANGE =
        (st.newlno + (rest.length + 1)) % UINT_RANGE := by
      simp only [UINT_RANGE]; omega
    simp [waypointLines, e]

theorem waypointLines_append (T : CText F) (cx : Ctx F) (a b : List (Int × IntPoint)) :
    ∀ start : Nat, start < UINT_RANGE →
      waypointLines T cx start (a ++ b) =
        waypointLines T cx start a ++ waypointLines T cx ((start + a.length) % UINT_RANGE) b := by
  induction a with
  | nil => intro start hlt; simp [waypointLines, Nat.mod_eq_of_lt hlt]
  | cons x rest ih =>
    intro start hlt
    obtain ⟨x1, x2⟩ := x
    have e : ((start + 1) % UINT_RANGE + rest.length) % UINT_RANGE =
        (start + (rest.length + 1)) % UINT_RANGE := by
      simp only [UINT_RANGE]; omega
    simp [waypointLines, ih _ (Nat.mod_lt _ (by decide : UINT_RANGE > 0)), e]

theorem emitRings_eq (T : CText F) (cx : Ctx F) (rings : List Path) :
    ∀ (prev : Int) (st : Stitch F), st.FirstCornerX = (prev : F) → st.newlno < UINT_RANGE →
      rings.foldl (fun s pth3 => emitRing T cx 0 pth3 s) st =
        ⟨(lastCorner prev rings : F), (st.newlno + rings.flatten.length) % UINT_RANGE,
          st.outfile ++ waypointLines T cx st.newlno (stitched prev rings)⟩ := by
  induction rings with
  | nil =>
    intro prev st hx hlt
    simp [lastCorner, stitched, waypointLines, Nat.mod_eq_of_lt hlt, ← hx]
  | cons ring rest ih =>
    intro prev st hx hlt
    cases ring with
    | nil =>
      simp only [List.foldl_cons, emitRing, lastCorner, stitched, List.flatten_cons,
        List.nil_append]
      exact ih prev st hx hlt
    | cons corner others =>
      have hp := emitPoint_line T cx 0 corner st
      simp only [if_true] at hp
      have hlt1 : (st.newlno + 1) % UINT_RANGE < UINT_RANGE := Nat.mod_lt _ (by decide)
      have hr : emitRing T cx 0 (corner :: others) st =
          ⟨(corner.X : F), (st.newlno + (others.length + 1)) % UINT_RANGE,
            st.outfile ++ waypointLines T cx st.newlno
              ((prev, corner) :: others.map (fun ipt => (ipt.X, ipt)))⟩ := by
        rw [emitRing, hp, emitRing_tail T cx others 1 _ (by decide) hlt1]
        have e : ((st.newlno + 1) % UINT_RANGE + others.length) % UINT_RANGE =
            (st.newlno + (others.length + 1)) % UINT_RANGE := by
          simp only [UINT_RANGE]; omega
        simp [waypointLines, e, hx, dequantLat]
      rw [List.foldl_cons, hr, ih corner.X _ rfl (Nat.mod_lt _ (by decide))]
      have e2 : ((st.newlno + (others.length + 1)) % UINT_RANGE + rest.flatten.length) %
          UINT_RANGE = (st.newlno + ((corner :: others) :: rest).flatten.length) % UINT_RANGE := by
        simp only [UINT_RANGE, List.flatten_cons, List.length_append, List.length_cons]; omega
      have e3 := waypointLines_append T cx
        ((prev, corner) :: others.map (fun ipt => (ipt.X, ipt))) (stitched corner.X rest)
        st.newlno hlt
      simp only [List.length_cons, List.length_map] at e3
      simp only [lastCorner, stitched, e2, e3, List.append_assoc]

theorem offsetLoop_emitted (T : CText F) (cx : Ctx F) (E : Engine) :
    ∀ (fuel : Nat) (solution : Paths) (st : Stitch F),
      (offsetLoop T cx E fuel solution st).1 =
        (emitted E cx.DegSpacing fuel solution).foldl (fun s pth3 => emitRing T cx 0 pth3 s) st := by
  intro fuel
  induction fuel with
  | zero =>
    intro solution st
    cases solution <;> simp [offsetLoop, emitted]
  | succ fuel ih =>
    intro solution st
    cases solution with
    | nil => simp [offsetLoop, emitted]
    | cons ring rings =>
      rw [offsetLoop, ih, emitted, List.foldl_append]
      rfl

theorem prepare_ok (M : CMath F) (T : CText F) (infile : List String) (sp : Nat) (d : F)
    (su : Setup F) (h : prepare M T infile sp d = Except.ok su) :
    (infile.drop 2).length ≤ MAXLINES ∧
    su.cx.WPparms = (infile.drop 2).map parseLine ∧
    su.cx.lno = (infile.drop 2).length ∧
    su.cx.mowdir = d ∧
    ∃ lr lat0, latrad M T ((infile.drop 2).map parseLine) = some lr ∧
      su.cx.LongScaleFactor = LongScaleFactor M lr ∧
      su.cx.DegSpacing = DegSpacing M sp lr ∧
      buildPath M T (LongScaleFactor M lr) d ((infile.drop 2).map parseLine) [] = some su.p ∧
      T.stod (cell ((infile.drop 2).map parseLine) 0 8) = some lat0 ∧
      su.FirstCornerX = quantLat M lat0 := by
  unfold prepare at h
  simp only [] at h
  split at h
  · cases h
  · next hmax =>
    split at h
    · cases h
    · next lr hlr =>
      split at h
      · cases h
      · next p hp =>
        split at h
        · cases h
        · next lat0 hlat0 =>
          cases h
          exact ⟨by omega, rfl, rfl, rfl, lr, lat0, hlr, rfl, rfl, hp, hlat0, rfl⟩

theorem prepare_three (M : CMath F) (T : CText F) (infile : List String) (sp : Nat) (d : F)
    (su : Setup F) (h : prepare M T infile sp d = Except.ok su) :
    3 ≤ (infile.drop 2).length := by
  obtain ⟨_, _, _, _, lr, _, hlr, _⟩ := prepare_ok M T infile sp d su h
  by_contra hlt
  have hcell : latradSource ((infile.drop 2).map parseLine) = "" := by
    have hlen : ((infile.drop 2).map parseLine).length ≤ 2 := by
      rw [List.length_map]; omega
    unfold latradSource cell
    rw [List.getD_eq_default _ _ hlen]
    rfl
  unfold latrad at hlr
  rw [hcell, T.stod_empty] at hlr
  cases hlr

theorem plan_outfile (M : CMath F) (T : CText F) (E : Engine) (fuel : Nat)
    (infile : List String) (sp : Nat) (d : F) (su : Setup F)
    (h : prepare M T infile sp d = Except.ok su) :
    (plan M T E fuel infile sp d).outfile =
      copyInput infile ++
        waypointLines T su.cx ((infile.drop 2).length + 1)
          (stitched su.FirstCornerX
            (emitted E su.cx.DegSpacing fuel
              (E [su.p] JoinType.jtMiter EndType.etClosedPolygon su.cx.DegSpacing))) := by
  obtain ⟨hmax, _, hlno, _⟩ := prepare_ok M T infile sp d su h
  have hlt : (infile.drop 2).length + 1 < UINT_RANGE := by
    simp only [MAXLINES] at hmax; simp only [UINT_RANGE]; omega
  have hout : (plan M T E fuel infile sp d).outfile =
      (offsetLoop T su.cx E fuel
        (E [su.p] JoinType.jtMiter EndType.etClosedPolygon su.cx.DegSpacing)
        ⟨(su.FirstCornerX : F), (su.cx.lno + 1) % UINT_RANGE, copyInput infile⟩).1.outfile := by
    unfold plan
    rw [h]
    simp only []
    split <;> rfl
  rw [hout, offsetLoop_emitted, hlno, Nat.mod_eq_of_lt hlt,
    emitRings_eq T su.cx _ su.FirstCornerX _ rfl hlt]

theorem waypointLines_latitudes (T : CText F) (cx : Ctx F) (pts : List (Int × IntPoint)) :
    ∀ start : Nat, (waypointLines T cx start pts).map (fun line => line.getD 8 "") =
      pts.map (fun xp => T.put (dequantLat xp.1)) := by
  induction pts with
  | nil => intro start; simp [waypointLines]
  | cons xp rest ih =>
    intro start
    obtain ⟨x, ipt⟩ := xp
    simp only [waypointLines, List.map_cons, ih]
    rfl

theorem stitched_continuity (rings : List Path) :
    ∀ prev : Int, (stitched prev rings).map Prod.fst =
      continuityXs prev (rings.filter (fun ring => !ring.isEmpty)) := by
  induction rings with
  | nil => intro prev; simp [stitched, continuityXs]
  | cons ring rest ih =>
    intro prev
    cases ring with
    | nil => simp [stitched, ih]
    | cons corner others =>
      simp [stitched, continuityXs, ih, Function.comp_def]

theorem waypointLines_get (T : CText F) (cx : Ctx F) (pts : List (Int × IntPoint)) :
    ∀ (start i : Nat) (line : List String), start < UINT_RANGE →
      (waypointLines T cx start pts).get? i = some line →
      ∃ lat lon : F, line = waypointLine T cx ((start + i) % UINT_RANGE) lat lon := by
  induction pts with
  | nil => intro start i line _ h; simp [waypointLines] at h
  | cons xp rest ih =>
    intro start i line hlt h
    obtain ⟨x, ipt⟩ := xp
    cases i with
    | zero =>
      simp only [waypointLines, List.get?_cons_zero, Option.some.injEq] at h
      exact ⟨_, _, by rw [← h, Nat.add_zero, Nat.mod_eq_of_lt hlt]⟩
    | succ i =>
      simp only [waypointLines, List.get?_cons_succ] at h
      obtain ⟨lat, lon, hl⟩ := ih _ i line (Nat.mod_lt _ (by decide)) h
      refine ⟨lat, lon, ?_⟩
      have e : ((start + 1) % UINT_RANGE + i) % UINT_RANGE = (start + (i + 1)) % UINT_RANGE := by
        simp only [UINT_RANGE]; omega
      rw [hl, e]

/-- C6: continuity rule.  In a run that reaches the offset loop, `FirstCornerX` starts as
the quantised latitude of the first perimeter record (row 0 of the table), and
the latitude items (item 9) of the generated lines are, in order, the texts of
`x / SCALEFACTOR` for the `x` that the continuity rule assigns to the non-empty
rings handed to the stitcher: for the first point of the first ring that
quantised latitude, for the first point of a later ring the `X` of the first
point of the ring before it, for every other point its own `X`.  This holds
after any number of turns of the loop. -/
theorem first_corner_continuity (M : CMath F) (T : CText F) (E : Engine) (fuel : Nat)
    (infile : List String) (sp : Nat) (d : F) (su : Setup F)
    (h : prepare M T infile sp d = Except.ok su) :
    (T.stod (cell ((infile.drop 2).map parseLine) 0 8)).map (quantLat M) =
        some su.FirstCornerX ∧
      ((plan M T E fuel infile sp d).outfile.drop (copyInput infile).length).map
          (fun line => line.getD 8 "") =
        (continuityXs su.FirstCornerX
          ((emitted E su.cx.DegSpacing fuel
              (E [su.p] JoinType.jtMiter EndType.etClosedPolygon su.cx.DegSpacing)).filter
            (fun ring => !ring.isEmpty))).map
          (fun x => T.put (dequantLat x)) := by
  obtain ⟨_, _, _, _, lr, lat0, _, _, _, _, hlat0, hq⟩ := prepare_ok M T infile sp d su h
  refine ⟨by rw [hlat0, hq]; rfl, ?_⟩
  rw [plan_outfile M T E fuel infile sp d su h, List.drop_left, waypointLines_latitudes,
    ← stitched_continuity, List.map_map]
  rfl

/-- C8: payload propagation.  In a run that reaches the offset loop, every generated line
has exactly 12 items, and its items 2 to 8 and 11 and 12 (positions 1 to 7,
10 and 11 counted from 0) are the fields at the same positions of the last
perimeter record. -/
theorem payload_propagation (M : CMath F) (T : CText F) (E : Engine) (fuel : Nat)
    (infile : List String) (sp : Nat) (d : F) (su : Setup F)
    (h : prepare M T infile sp d = Except.ok su) (line : List String)
    (hline : line ∈ (plan M T E fuel infile sp d).outfile.drop (copyInput infile).length) :
    line.length = 12 ∧
    ∀ k : Nat, (1 ≤ k ∧ k ≤ 7) ∨ k = 10 ∨ k = 11 →
      line.getD k "" = (parseLine ((infile.drop 2).getLastD "")).getD k "" := by
  obtain ⟨_, hwp, hlno, _⟩ := prepare_ok M T infile sp d su h
  have h3 := prepare_three M T infile sp d su h
  rw [plan_outfile M T E fuel infile sp d su h, List.drop_left] at hline
  obtain ⟨i, hi⟩ := List.get?_of_mem hline
  have hlt : (infile.drop 2).length + 1 < UINT_RANGE := by
    have := (prepare_ok M T infile sp d su h).1
    simp only [MAXLINES] at this; simp only [UINT_RANGE]; omega
  obtain ⟨lat, lon, hl⟩ := waypointLines_get T su.cx _ _ i line hlt hi
  have hrow : ∀ k, cell su.cx.WPparms (su.cx.lno - 1) k =
      (parseLine ((infile.drop 2).getLastD "")).getD k "" := by
    intro k
    unfold cell
    rw [hwp, hlno]
    congr 1
    generalize infile.drop 2 = per at h3
    have hne : per ≠ [] := by intro e; rw [e] at h3; simp at h3
    rw [List.getD_eq_getElem _ _ (by rw [List.length_map]; omega)]
    rw [List.getElem_map]
    congr 1
    rw [List.getLastD_eq_getLast?, List.getLast?_eq_getElem?]
    rw [List.getElem?_eq_getElem (by omega)]
    rfl
  subst hl
  refine ⟨by simp [waypointLine], ?_⟩
  intro k hk
  rw [← hrow]
  rcases hk with ⟨h1, h2⟩ | rfl | rfl
  · interval_cases k <;> rfl
  · rfl
  · rfl

end Loop

theorem first_corner_continuity_witness :
    prepare ratMath ratText sampleInput 54 ((1 : Int) : ℚ) = Except.ok sampleSetup ∧
    ((ratText.stod (cell ((sampleInput.drop 2).map parseLine) 0 8)).map (quantLat ratMath) =
        some sampleSetup.FirstCornerX ∧
      ((plan ratMath ratText peel 5 sampleInput 54 ((1 : Int) : ℚ)).outfile.drop
          (copyInput sampleInput).length).map (fun line => line.getD 8 "") =
        (continuityXs sampleSetup.FirstCornerX
          ((emitted peel sampleSetup.cx.DegSpacing 5
              (peel [sampleSetup.p] JoinType.jtMiter EndType.etClosedPolygon
                sampleSetup.cx.DegSpacing)).filter
            (fun ring => !ring.isEmpty))).map
          (fun x => ratText.put (dequantLat x))) :=
  ⟨rfl, first_corner_continuity ratMath ratText peel 5 sampleInput 54 ((1 : Int) : ℚ)
    sampleSetup rfl⟩

theorem payload_propagation_witness :
    prepare ratMath ratText sampleInput 54 ((1 : Int) : ℚ) = Except.ok sampleSetup ∧
    (plan ratMath ratText peel 5 sampleInput 54 ((1 : Int) : ℚ)).outfile.getD 5 [] ∈
      (plan ratMath ratText peel 5 sampleInput 54 ((1 : Int) : ℚ)).outfile.drop
        (copyInput sampleInput).length ∧
    (((plan ratMath ratText peel 5 sampleInput 54 ((1 : Int) : ℚ)).outfile.getD 5 []).length =
        12 ∧
      ∀ k : Nat, (1 ≤ k ∧ k ≤ 7) ∨ k = 10 ∨ k = 11 →
        ((plan ratMath ratText peel 5 sampleInput 54 ((1 : Int) : ℚ)).outfile.getD 5 []).getD
            k "" =
          (parseLine ((sampleInput.drop 2).getLastD "")).getD k "") :=
  ⟨rfl, List.get?_mem (rfl :
      ((plan ratMath ratText peel 5 sampleInput 54 ((1 : Int) : ℚ)).outfile.drop
        (copyInput sampleInput).length).get? 0 = some _),
    payload_propagation ratMath ratText peel 5 sampleInput 54 ((1 : Int) : ℚ) sampleSetup rfl _
      (List.get?_mem (rfl :
        ((plan ratMath ratText peel 5 sampleInput 54 ((1 : Int) : ℚ)).outfile.drop
          (copyInput sampleInput).length).get? 0 = some _))⟩


/-! ## The driver -/

section Driver

variable {F : Type} [Add F] [Sub F] [Mul F] [Div F] [Neg F] [NatCast F] [IntCast F]
  [OfScientific F]

theorem engineResult_iterate (E : Engine) (spacing : Int) (p : Path) (i : Nat) :
    engineResult E spacing p i =
      (fun sol => E (nextSubject sol) JoinType.jtMiter EndType.etClosedPolygon spacing)^[i]
        (E [p] JoinType.jtMiter EndType.etClosedPolygon spacing) := by
  induction i with
  | zero => rfl
  | succ i ih =>
    rw [Function.iterate_succ_apply', ← ih]
    rfl

theorem offsetLoop_terminates (T : CText F) (cx : Ctx F) (E : Engine) (k : Nat) :
    ∀ (fuel : Nat) (solution : Paths) (st : Stitch F),
      (∀ i, i < k →
        (fun sol => E (nextSubject sol) JoinType.jtMiter EndType.etClosedPolygon
          cx.DegSpacing)^[i] solution ≠ []) →
      (fun sol => E (nextSubject sol) JoinType.jtMiter EndType.etClosedPolygon
        cx.DegSpacing)^[k] solution = [] →
      k ≤ fuel →
      (offsetLoop T cx E fuel solution st).2 = true ∧
      emitted E cx.DegSpacing fuel solution =
        ((List.range k).map (fun i =>
          (fun sol => E (nextSubject sol) JoinType.jtMiter EndType.etClosedPolygon
            cx.DegSpacing)^[i] solution)).flatten := by
  induction k with
  | zero =>
    intro fuel solution st _ h0 _
    simp only [Function.iterate_zero, id_eq] at h0
    subst h0
    cases fuel <;> simp [offsetLoop, emitted]
  | succ k ih =>
    intro fuel solution st hne hk hf
    have h0 := hne 0 (Nat.succ_pos k)
    simp only [Function.iterate_zero, id_eq] at h0
    obtain ⟨fuel, rfl⟩ : ∃ f, fuel = f + 1 := ⟨fuel - 1, by omega⟩
    cases solution with
    | nil => exact absurd rfl h0
    | cons ring rings =>
      have ih2 := ih fuel
        (E (nextSubject (ring :: rings)) JoinType.jtMiter EndType.etClosedPolygon cx.DegSpacing)
        (emitSolution T cx (ring :: rings) st)
        (fun i hi => by
          have := hne (i + 1) (by omega)
          rwa [Function.iterate_succ_apply] at this)
        (by rwa [Function.iterate_succ_apply] at hk)
        (by omega)
      refine ⟨by rw [offsetLoop]; exact ih2.1, ?_⟩
      rw [emitted, ih2.2, List.range_succ_eq_map, List.map_cons, List.flatten_cons,
        List.map_map]
      rfl


theorem plan_finished (M : CMath F) (T : CText F) (E : Engine) (fuel : Nat)
    (infile : List String) (sp : Nat) (d : F) (su : Setup F)
    (h : prepare M T infile sp d = Except.ok su)
    (hdone : (offsetLoop T su.cx E fuel
        (E [su.p] JoinType.jtMiter EndType.etClosedPolygon su.cx.DegSpacing)
        ⟨(su.FirstCornerX : F), (su.cx.lno + 1) % UINT_RANGE, copyInput infile⟩).2 = true) :
    plan M T E fuel infile sp d =
      ⟨Status.returned 0,
        copyInput infile ++
          waypointLines T su.cx ((infile.drop 2).length + 1)
            (stitched su.FirstCornerX
              (emitted E su.cx.DegSpacing fuel
                (E [su.p] JoinType.jtMiter EndType.etClosedPolygon su.cx.DegSpacing))),
        [toString (((infile.drop 2).length + 1 +
            (emitted E su.cx.DegSpacing fuel
              (E [su.p] JoinType.jtMiter EndType.etClosedPolygon
                su.cx.DegSpacing)).flatten.length) % UINT_RANGE) ++
          " waypoints in new file."], []⟩ := by
  obtain ⟨hmax, _, hlno, _⟩ := prepare_ok M T infile sp d su h
  have hlt : (infile.drop 2).length + 1 < UINT_RANGE := by
    simp only [MAXLINES] at hmax; simp only [UINT_RANGE]; omega
  have hst := offsetLoop_emitted T su.cx E fuel
    (E [su.p] JoinType.jtMiter EndType.etClosedPolygon su.cx.DegSpacing)
    ⟨(su.FirstCornerX : F), (su.cx.lno + 1) % UINT_RANGE, copyInput infile⟩
  rw [hlno, Nat.mod_eq_of_lt hlt, emitRings_eq T su.cx _ su.FirstCornerX _ rfl hlt] at hst
  rw [hlno, Nat.mod_eq_of_lt hlt] at hdone
  unfold plan
  rw [h]
  simp only [hlno, Nat.mod_eq_of_lt hlt, hdone, if_true, hst]

/-- C9, as amended: when a run reaches the first call of the engine on a perimeter of `n`
records and that call returns no ring, the body of the offset loop is never
executed (the loop is left at once, whatever the fuel), the output file holds
the two header lines followed by the `n` perimeter lines and no generated
line, `main` returns 0, and the number it reports is `n + 1`. -/
theorem zero_ring_run (M : CMath F) (T : CText F) (E : Engine) (fuel : Nat)
    (infile : List String) (sp : Nat) (d : F) (su : Setup F)
    (h : prepare M T infile sp d = Except.ok su)
    (hempty : E [su.p] JoinType.jtMiter EndType.etClosedPolygon su.cx.DegSpacing = []) :
    (∀ st : Stitch F,
      offsetLoop T su.cx E fuel
        (E [su.p] JoinType.jtMiter EndType.etClosedPolygon su.cx.DegSpacing) st = (st, true)) ∧
    copyInput infile =
      [[infile.getD 0 ""], [infile.getD 1 ""]] ++ (infile.drop 2).map (fun line => [line]) ∧
    plan M T E fuel infile sp d =
      ⟨Status.returned 0, copyInput infile,
        [toString ((infile.drop 2).length + 1) ++ " waypoints in new file."], []⟩ := by
  have hloop : ∀ st : Stitch F,
      offsetLoop T su.cx E fuel
        (E [su.p] JoinType.jtMiter EndType.etClosedPolygon su.cx.DegSpacing) st = (st, true) := by
    intro st
    rw [hempty]
    cases fuel <;> rfl
  refine ⟨hloop, rfl, ?_⟩
  obtain ⟨hmax, _, _, _⟩ := prepare_ok M T infile sp d su h
  have hlt : (infile.drop 2).length + 1 < UINT_RANGE := by
    simp only [MAXLINES] at hmax; simp only [UINT_RANGE]; omega
  rw [plan_finished M T E fuel infile sp d su h (by rw [hloop]), hempty]
  have e : emitted E su.cx.DegSpacing fuel [] = [] := by cases fuel <;> rfl
  simp only [e, stitched, waypointLines, List.flatten_nil, List.length_nil, Nat.add_zero,
    Nat.mod_eq_of_lt hlt, List.append_nil]

/-- C10: last-ring continuation.  Let the results of the engine be those of the
specification: the first call is made on the perimeter ring alone, every later
call on the last ring alone of the result before it, always with the miter
join, the closed-polygon mode and the spacing of the first call.  If the first
`k` results hold a ring and the next one is empty, then with fuel for `k`
turns the loop hands to the stitcher exactly the rings of those `k` results in
the order returned, the run returns 0, and the output file is the copied input
followed by the lines of those rings. -/
theorem last_ring_continuation (M : CMath F) (T : CText F) (E : Engine) (fuel : Nat)
    (infile : List String) (sp : Nat) (d : F) (su : Setup F) (k : Nat)
    (h : prepare M T infile sp d = Except.ok su)
    (hne : ∀ i, i < k → engineResult E su.cx.DegSpacing su.p i ≠ [])
    (hk : engineResult E su.cx.DegSpacing su.p k = [])
    (hf : k ≤ fuel) :
    emitted E su.cx.DegSpacing fuel
        (E [su.p] JoinType.jtMiter EndType.etClosedPolygon su.cx.DegSpacing) =
      ringsOfCalls E su.cx.DegSpacing su.p k ∧
    plan M T E fuel infile sp d =
      ⟨Status.returned 0,
        copyInput infile ++
          waypointLines T su.cx ((infile.drop 2).length + 1)
            (stitched su.FirstCornerX (ringsOfCalls E su.cx.DegSpacing su.p k)),
        [toString (((infile.drop 2).length + 1 +
            (ringsOfCalls E su.cx.DegSpacing su.p k).flatten.length) % UINT_RANGE) ++
          " waypoints in new file."], []⟩ := by
  have hterm := offsetLoop_terminates T su.cx E k fuel
    (E [su.p] JoinType.jtMiter EndType.etClosedPolygon su.cx.DegSpacing)
    ⟨(su.FirstCornerX : F), (su.cx.lno + 1) % UINT_RANGE, copyInput infile⟩
    (fun i hi => by rw [← engineResult_iterate]; exact hne i hi)
    (by rw [← engineResult_iterate]; exact hk) hf
  have hem : emitted E su.cx.DegSpacing fuel
        (E [su.p] JoinType.jtMiter EndType.etClosedPolygon su.cx.DegSpacing) =
      ringsOfCalls E su.cx.DegSpacing su.p k := by
    rw [hterm.2]
    unfold ringsOfCalls
    congr 2
    funext i
    rw [engineResult_iterate]
  refine ⟨hem, ?_⟩
  rw [plan_finished M T E fuel infile sp d su h hterm.1, hem]

end Driver

/-- C9, counterexample: on the sample perimeter of three records with an engine that
returns no ring on its first call, the program reports 4 waypoints, not 0. -/
theorem zero_ring_report_counterexample :
    noRings [sampleSetup.p] JoinType.jtMiter EndType.etClosedPolygon
        sampleSetup.cx.DegSpacing = [] ∧
    (sampleInput.drop 2).length = 3 ∧
    (main 64 ratMath ratText noRings sampleFiles 0
        ["mowplan.exe", "in.waypoints", "out.waypoints", "54", "CW"]).cout =
      ["4 waypoints in new file."] ∧
    (main 64 ratMath ratText noRings sampleFiles 0
        ["mowplan.exe", "in.waypoints", "out.waypoints", "54", "CW"]).cout ≠
      ["0 waypoints in new file."] :=
  ⟨rfl, by decide, by decide, by decide⟩

theorem zero_ring_run_witness :
    prepare ratMath ratText sampleInput 54 ((1 : Int) : ℚ) = Except.ok sampleSetup ∧
    noRings [sampleSetup.p] JoinType.jtMiter EndType.etClosedPolygon
        sampleSetup.cx.DegSpacing = [] ∧
    ((∀ st : Stitch ℚ,
      offsetLoop ratText sampleSetup.cx noRings 0
        (noRings [sampleSetup.p] JoinType.jtMiter EndType.etClosedPolygon
          sampleSetup.cx.DegSpacing) st = (st, true)) ∧
    copyInput sampleInput =
      [[sampleInput.getD 0 ""], [sampleInput.getD 1 ""]] ++
        (sampleInput.drop 2).map (fun line => [line]) ∧
    plan ratMath ratText noRings 0 sampleInput 54 ((1 : Int) : ℚ) =
      ⟨Status.returned 0, copyInput sampleInput,
        [toString ((sampleInput.drop 2).length + 1) ++ " waypoints in new file."], []⟩) :=
  ⟨rfl, rfl,
    zero_ring_run ratMath ratText noRings 0 sampleInput 54 ((1 : Int) : ℚ) sampleSetup rfl rfl⟩

theorem last_ring_continuation_witness :
    prepare ratMath ratText sampleInput 54 ((1 : Int) : ℚ) = Except.ok sampleSetup ∧
    engineResult peel sampleSetup.cx.DegSpacing sampleSetup.p 0 ≠ [] ∧
    engineResult peel sampleSetup.cx.DegSpacing sampleSetup.p 1 ≠ [] ∧
    engineResult peel sampleSetup.cx.DegSpacing sampleSetup.p 2 = [] ∧
    2 ≤ 5 ∧
    (emitted peel sampleSetup.cx.DegSpacing 5
        (peel [sampleSetup.p] JoinType.jtMiter EndType.etClosedPolygon
          sampleSetup.cx.DegSpacing) =
      ringsOfCalls peel sampleSetup.cx.DegSpacing sampleSetup.p 2 ∧
    plan ratMath ratText peel 5 sampleInput 54 ((1 : Int) : ℚ) =
      ⟨Status.returned 0,
        copyInput sampleInput ++
          waypointLines ratText sampleSetup.cx ((sampleInput.drop 2).length + 1)
            (stitched sampleSetup.FirstCornerX
              (ringsOfCalls peel sampleSetup.cx.DegSpacing sampleSetup.p 2)),
        [toString (((sampleInput.drop 2).length + 1 +
            (ringsOfCalls peel sampleSetup.cx.DegSpacing sampleSetup.p 2).flatten.length) %
              UINT_RANGE) ++
          " waypoints in new file."], []⟩) :=
  have h0 : engineResult peel sampleSetup.cx.DegSpacing sampleSetup.p 0 ≠ [] := by decide
  have h1 : engineResult peel sampleSetup.cx.DegSpacing sampleSetup.p 1 ≠ [] := by decide
  ⟨rfl, h0, h1, rfl, by decide,
    last_ring_continuation ratMath ratText peel 5 sampleInput 54 ((1 : Int) : ℚ) sampleSetup 2
      rfl
      (fun i hi => match i, hi with
        | 0, _ => h0
        | 1, _ => h1)
      rfl (by decide)⟩


/-! ## The scale model over the real numbers -/

theorem radicand_bounds (phi : ℝ) :
    (99 / 100 : ℝ) ≤ 1 - 0.00669437999014 * Real.sin phi ^ 2 ∧
      1 - 0.00669437999014 * Real.sin phi ^ 2 ≤ 1 := by
  have h1 : Real.sin phi ^ 2 ≤ 1 := Real.sin_sq_le_one phi
  have h0 : 0 ≤ Real.sin phi ^ 2 := sq_nonneg _
  constructor <;> nlinarith

theorem LatMtrPerDeg_real (phi : ℝ) :
    LatMtrPerDeg realMath phi =
      Real.pi * 6378137.0 * (1 - 0.00669437999014) /
        (180 * (1 - 0.00669437999014 * Real.sin phi ^ 2) ^ (0.75 : ℝ)) := by
  have hu := (radicand_bounds phi).1
  have hu0 : (0 : ℝ) ≤ 1 - 0.00669437999014 * Real.sin phi ^ 2 := by linarith
  unfold LatMtrPerDeg
  simp only [realMath, Nat.cast_one, Nat.cast_ofNat, Real.rpow_two]
  rw [Real.sqrt_eq_rpow, ← Real.rpow_mul hu0]
  norm_num

/-- C4 (the code departs from the claim): over the real numbers the value computed for
`LatMtrPerDeg` is `pi * a * (1 - e2) / (180 * (1 - e2 * sin phi ^ 2) ^ 0.75)`
at every latitude, because the power 1.5 is applied to the square root of
`1 - e2 * sin phi ^ 2`; at the latitude of 30 degrees it differs from the
specified value, whose exponent is 1.5. -/
theorem latitude_scale_exponent :
    (∀ phi : ℝ, LatMtrPerDeg realMath phi =
      Real.pi * 6378137.0 * (1 - 0.00669437999014) /
        (180 * (1 - 0.00669437999014 * Real.sin phi ^ 2) ^ (0.75 : ℝ))) ∧
    LatMtrPerDeg realMath (Real.pi / 6) ≠ metersPerDegLat (Real.pi / 6) := by
  refine ⟨LatMtrPerDeg_real, ?_⟩
  rw [LatMtrPerDeg_real]
  unfold metersPerDegLat
  have hu := radicand_bounds (Real.pi / 6)
  have hult : 1 - 0.00669437999014 * Real.sin (Real.pi / 6) ^ 2 < (1 : ℝ) := by
    rw [Real.sin_pi_div_six]; norm_num
  generalize 1 - 0.00669437999014 * Real.sin (Real.pi / 6) ^ 2 = u at hu hult ⊢
  have hupos : 0 < u := by linarith [hu.1]
  have hc0 : 0 < u ^ (0.75 : ℝ) := Real.rpow_pos_of_pos hupos _
  have hc1 : u ^ (0.75 : ℝ) < 1 := Real.rpow_lt_one hupos.le hult (by norm_num)
  have hsq : u ^ (1.5 : ℝ) = u ^ (0.75 : ℝ) * u ^ (0.75 : ℝ) := by
    rw [← Real.rpow_add hupos]; norm_num
  rw [hsq]
  have hA : 0 < Real.pi * 6378137.0 * (1 - 0.00669437999014) := by
    have := Real.pi_pos
    positivity
  intro heq
  rw [div_eq_div_iff (by positivity) (by positivity)] at heq
  have : u ^ (0.75 : ℝ) = 1 := by
    have h2 : (Real.pi * 6378137.0 * (1 - 0.00669437999014)) * 180 * (u ^ (0.75 : ℝ)) *
        (u ^ (0.75 : ℝ) - 1) = 0 := by linarith
    rcases mul_eq_zero.mp h2 with h3 | h3
    · exfalso
      have : 0 < (Real.pi * 6378137.0 * (1 - 0.00669437999014)) * 180 * (u ^ (0.75 : ℝ)) := by
        positivity
      linarith
    · linarith
  linarith


/-! ## The quantiser over the real numbers -/

theorem cround_error (x : ℝ) : |((cround x : Int) : ℝ) - x| ≤ 1 / 2 := by
  unfold cround
  split
  · have h1 := Int.floor_le (x + 1 / 2)
    have h2 := Int.lt_floor_add_one (x + 1 / 2)
    rw [abs_le]; constructor <;> linarith
  · have h1 := Int.le_ceil (x - 1 / 2)
    have h2 := Int.ceil_lt_add_one (x - 1 / 2)
    rw [abs_le]; constructor <;> linarith

theorem SCALEFACTOR_real : (SCALEFACTOR : ℝ) = -100000000 := by
  unfold SCALEFACTOR; norm_num

theorem latitude_round_trip (lat : ℝ) :
    |dequantLat (quantLat realMath lat) - lat| ≤ 1 / 200000000 := by
  unfold dequantLat quantLat
  simp only [realMath, SCALEFACTOR_real]
  have h := cround_error (lat * -100000000)
  rw [abs_le] at h ⊢
  constructor
  · rw [le_sub_iff_add_le, le_div_iff_of_neg (by norm_num)]; linarith [h.1, h.2]
  · rw [sub_le_iff_le_add, div_le_iff_of_neg (by norm_num)]; linarith [h.1, h.2]

theorem longitude_round_trip (r d lon : ℝ) (hd : d = 1 ∨ d = -1) (hr : 0 < r) :
    |dequantLon r d (quantLon realMath r d lon) - lon| ≤ 1 / (200000000 * r) := by
  unfold dequantLon quantLon
  simp only [realMath, SCALEFACTOR_real]
  have h := cround_error (r * lon * (d * -100000000))
  generalize ((cround (r * lon * (d * -100000000)) : Int) : ℝ) = q at h
  have hne : d * -100000000 ≠ 0 := by rcases hd with rfl | rfl <;> norm_num
  have e : q / r / (d * -100000000) - lon =
      (q - r * lon * (d * -100000000)) / (r * (d * -100000000)) := by
    have hr0 : r ≠ 0 := hr.ne'
    have hd0 : d ≠ 0 := by rcases hd with rfl | rfl <;> norm_num
    field_simp
    ring
  rw [e, abs_div, abs_mul, abs_of_pos hr]
  have habs : |d * -100000000| = (100000000 : ℝ) := by
    rcases hd with rfl | rfl <;> norm_num
  rw [habs, div_le_div_iff₀ (by positivity) (by positivity)]
  nlinarith [h, abs_nonneg (q - r * lon * (d * -100000000))]

/-- C5, as amended: over the real numbers, for every latitude, longitude, direction
`1` or `-1` and longitude scale ratio `r > 0`, the latitude read back from
its quantised value is within `1e-7` degrees of the original, the longitude
read back is within `1 / (2 * 10 ^ 8 * r)` degrees, and hence within `1e-7`
degrees whenever `r` is at least `1 / 20`. -/
theorem quantiser_round_trip (lat lon d r : ℝ) (hd : d = 1 ∨ d = -1) (hr : 0 < r) :
    |dequantLat (quantLat realMath lat) - lat| ≤ 1e-7 ∧
    |dequantLon r d (quantLon realMath r d lon) - lon| ≤ 1 / (200000000 * r) ∧
    (1 / 20 ≤ r → |dequantLon r d (quantLon realMath r d lon) - lon| ≤ 1e-7) := by
  refine ⟨?_, longitude_round_trip r d lon hd hr, ?_⟩
  · have := latitude_round_trip lat
    norm_num at this ⊢
    linarith
  · intro hr2
    have h := longitude_round_trip r d lon hd hr
    have h2 : 1 / (200000000 * r) ≤ (1e-7 : ℝ) := by
      rw [div_le_iff₀ (by positivity)]
      norm_num
      nlinarith
    linarith


theorem LongScaleFactor_real (phi : ℝ) :
    LongScaleFactor realMath phi =
      Real.cos phi *
        ((1 - 0.00669437999014 * Real.sin phi ^ 2) ^ (0.75 : ℝ) /
          (Real.sqrt (1 - 0.00669437999014 * Real.sin phi ^ 2) * (1 - 0.00669437999014))) := by
  have hu := (radicand_bounds phi).1
  have hupos : (0 : ℝ) < 1 - 0.00669437999014 * Real.sin phi ^ 2 := by linarith
  unfold LongScaleFactor
  rw [LatMtrPerDeg_real]
  unfold LongMtrPerDeg
  simp only [realMath, Nat.cast_one, Nat.cast_ofNat, Real.rpow_two]
  have h1 : Real.sqrt (1 - 0.00669437999014 * Real.sin phi ^ 2) ≠ 0 :=
    (Real.sqrt_pos.mpr hupos).ne'
  have h2 : (1 - 0.00669437999014 * Real.sin phi ^ 2) ^ (0.75 : ℝ) ≠ 0 :=
    (Real.rpow_pos_of_pos hupos _).ne'
  have h3 : Real.pi ≠ 0 := Real.pi_pos.ne'
  have h4 : (1 - 0.00669437999014 : ℝ) ≠ 0 := by norm_num
  field_simp
  ring

theorem scale_factor_bounds (phi : ℝ) :
    0 < (1 - 0.00669437999014 * Real.sin phi ^ 2) ^ (0.75 : ℝ) /
        (Real.sqrt (1 - 0.00669437999014 * Real.sin phi ^ 2) * (1 - 0.00669437999014)) ∧
      (1 - 0.00669437999014 * Real.sin phi ^ 2) ^ (0.75 : ℝ) /
        (Real.sqrt (1 - 0.00669437999014 * Real.sin phi ^ 2) * (1 - 0.00669437999014)) ≤
        (21 / 20 : ℝ) := by
  obtain ⟨hu1, hu2⟩ := radicand_bounds phi
  generalize 1 - 0.00669437999014 * Real.sin phi ^ 2 = u at hu1 hu2
  have hupos : 0 < u := by linarith
  have hs : (99 / 100 : ℝ) ≤ Real.sqrt u := by
    apply Real.le_sqrt_of_sq_le
    nlinarith
  have hp0 : 0 < u ^ (0.75 : ℝ) := Real.rpow_pos_of_pos hupos _
  have hp1 : u ^ (0.75 : ℝ) ≤ 1 := Real.rpow_le_one hupos.le hu2 (by norm_num)
  have hden : (49 / 50 : ℝ) ≤ Real.sqrt u * (1 - 0.00669437999014) := by
    have : (0.99 : ℝ) ≤ 1 - 0.00669437999014 := by norm_num
    norm_num at this ⊢
    nlinarith
  have hdpos : 0 < Real.sqrt u * (1 - 0.00669437999014) := by linarith
  refine ⟨div_pos hp0 hdpos, ?_⟩
  rw [div_le_iff₀ hdpos]
  nlinarith

theorem near_pole_scale :
    0 < LongScaleFactor realMath ((realMath.pi / 180.0) * 89) ∧
      LongScaleFactor realMath ((realMath.pi / 180.0) * 89) < 1 / 50 := by
  rw [LongScaleFactor_real]
  obtain ⟨hk0, hk1⟩ := scale_factor_bounds ((realMath.pi / 180.0) * 89)
  generalize (1 - 0.00669437999014 * Real.sin ((realMath.pi / 180.0) * 89) ^ 2) ^ (0.75 : ℝ) /
    (Real.sqrt (1 - 0.00669437999014 * Real.sin ((realMath.pi / 180.0) * 89) ^ 2) *
      (1 - 0.00669437999014)) = K at hk0 hk1
  have hphi : (realMath.pi / 180.0) * 89 = Real.pi / 2 - Real.pi / 180 := by
    simp only [realMath]; norm_num; ring
  rw [hphi, Real.cos_pi_div_two_sub]
  have hpi := Real.pi_pos
  have hpi2 := Real.pi_lt_d2
  have hs0 : 0 < Real.sin (Real.pi / 180) :=
    Real.sin_pos_of_pos_of_lt_pi (by positivity) (by linarith)
  have hs1 : Real.sin (Real.pi / 180) ≤ Real.pi / 180 := Real.sin_le (by positivity)
  have hs2 : Real.sin (Real.pi / 180) < 7 / 400 := by
    norm_num at hpi2; linarith
  constructor
  · positivity
  · nlinarith

/-- C5, counterexample: for the reference latitude of 89 degrees, which is not a pole, the
longitude scale ratio is positive, yet the longitude `0.0000002`, direction
clockwise, is quantised to 0 and read back as 0, which is more than `1e-7`
degrees away. -/
theorem round_trip_near_pole_counterexample :
    0 < LongScaleFactor realMath ((realMath.pi / 180.0) * 89) ∧
    ¬ |dequantLon (LongScaleFactor realMath ((realMath.pi / 180.0) * 89)) 1
          (quantLon realMath (LongScaleFactor realMath ((realMath.pi / 180.0) * 89)) 1
            0.0000002) - 0.0000002| ≤ (1e-7 : ℝ) := by
  obtain ⟨hr0, hr1⟩ := near_pole_scale
  refine ⟨hr0, ?_⟩
  generalize LongScaleFactor realMath ((realMath.pi / 180.0) * 89) = r at hr0 hr1
  have hq : quantLon realMath r 1 0.0000002 = 0 := by
    unfold quantLon
    simp only [realMath, SCALEFACTOR_real]
    unfold cround
    have hneg : ¬ (0 : ℝ) ≤ r * 0.0000002 * (1 * -100000000) := by
      norm_num; linarith
    rw [if_neg hneg, Int.ceil_eq_iff]
    norm_num
    constructor <;> linarith
  rw [hq]
  unfold dequantLon
  simp only [Int.cast_zero, zero_div, zero_sub, abs_neg]
  rw [abs_of_pos (by norm_num)]
  norm_num

theorem quantiser_round_trip_witness :
    ((1 : ℝ) = 1 ∨ (1 : ℝ) = -1) ∧ (0 : ℝ) < 1 ∧
    (|dequantLat (quantLat realMath 36.1) - 36.1| ≤ (1e-7 : ℝ) ∧
      |dequantLon 1 1 (quantLon realMath 1 1 (-86.1)) - (-86.1)| ≤ 1 / (200000000 * (1 : ℝ)) ∧
      ((1 / 20 : ℝ) ≤ 1 →
        |dequantLon 1 1 (quantLon realMath 1 1 (-86.1)) - (-86.1)| ≤ (1e-7 : ℝ))) :=
  ⟨Or.inl rfl, one_pos, quantiser_round_trip 36.1 (-86.1) 1 1 (Or.inl rfl) one_pos⟩

/-- Geographic coordinates are quantised inside the range of `int64_t`, where the
conversion after `round` keeps the value. -/
theorem quantised_in_range (lat lon d r : ℝ) (hlat : |lat| ≤ 90) (hlon : |lon| ≤ 180)
    (hd : d = 1 ∨ d = -1) (hr0 : 0 < r) (hr1 : r ≤ 21 / 20) :
    |quantLat realMath lat| < 2 ^ 63 ∧ |quantLon realMath r d lon| < 2 ^ 63 := by
  have key : ∀ x : ℝ, |x| ≤ 20000000000 → |cround x| < 2 ^ 63 := by
    intro x hx
    have h := cround_error x
    rw [abs_le] at h hx
    have hb : |((cround x : Int) : ℝ)| < 2 ^ 63 := by
      rw [abs_lt]; constructor <;> norm_num <;> linarith [h.1, h.2, hx.1, hx.2]
    exact_mod_cast hb
  unfold quantLat quantLon
  simp only [realMath, SCALEFACTOR_real]
  rw [abs_le] at hlat hlon
  constructor
  · apply key
    rw [abs_le]; constructor <;> linarith [hlat.1, hlat.2]
  · apply key
    have e : |r * lon * (d * -100000000)| = r * |lon| * 100000000 := by
      rw [abs_mul, abs_mul, abs_of_pos hr0]
      rcases hd with rfl | rfl <;> norm_num
    rw [e]
    have hl : |lon| ≤ 180 := abs_le.mpr hlon
    have hl0 : 0 ≤ |lon| := abs_nonneg _
    nlinarith

end MowPlan
